import Mathlib

/-!
Verification of the table column-width resize engine of
`src/plugins/CustomTableColumnResizePlugin.js`.

Numbers are modelled as rationals (`ℚ`); the plugin's arithmetic
(`Math.round(x*10)/10`, `toFixed(2)`, `parseFloat`, percentage deltas) is
exact on the decimal values that occur, so the rational embedding is
faithful.  JS strings are Lean `String`s (`String.data : List Char`
matching the JS code-unit sequence for the ASCII strings this plugin
produces).
-/

namespace TableResize

/-- JavaScript `Math.round`: round half toward positive infinity. -/
def jsRound (x : ℚ) : ℤ := ⌊x + 1/2⌋

/-- The 0.1% snapping in `_onMouseMove`: `Math.round(x * 10) / 10`. -/
def round10 (x : ℚ) : ℚ := (jsRound (x * 10) : ℚ) / 10

/-- Two-digit zero-padded rendering of `n % 100`, used by `toFixed2`. -/
def twoDigits (n : Nat) : String := (if n < 10 then "0" else "") ++ toString n

/-- JavaScript `Number.prototype.toFixed(2)`: sign is extracted first, then the
magnitude is scaled by 100 and rounded, ties picking the larger integer. -/
def toFixed2 (x : ℚ) : String :=
  let m := (jsRound (|x| * 100)).toNat
  (if x < 0 then "-" else "") ++ toString (m / 100) ++ "." ++ twoDigits (m % 100)

/-- Longest leading run of decimal digits of a character list, as digit
values, together with the rest of the list. -/
def takeDigits : List Char → List Nat × List Char
  | [] => ([], [])
  | c :: r =>
    if c.isDigit then
      let p := takeDigits r
      ((c.toNat - 48) :: p.1, p.2)
    else ([], c :: r)

/-- Value of a digit-value list read most-significant first. -/
def digitsToNat (ds : List Nat) : Nat := ds.foldl (fun a d => a * 10 + d) 0

/-- JavaScript `parseFloat` on the strings this plugin handles: optional
sign, integer digits, optional fraction; `none` models `NaN`.  (The
plugin's width strings never use exponent or `Infinity` forms.) -/
def parseJsFloat (s : String) : Option ℚ :=
  let cs := s.data.dropWhile (fun c => c = ' ')
  let (neg, cs) : Bool × List Char :=
    match cs with
    | '-' :: r => (true, r)
    | '+' :: r => (false, r)
    | _ => (false, cs)
  let (ip, cs) := takeDigits cs
  let (fp, ok) : List Nat × Bool :=
    match cs with
    | '.' :: r => ((takeDigits r).1, ip ≠ [] ∨ (takeDigits r).1 ≠ [])
    | _ => ([], ip ≠ [])
  if ok then
    let mag : ℚ := digitsToNat ip + (digitsToNat fp : ℚ) / (10 : ℚ) ^ fp.length
    some (if neg then -mag else mag)
  else none

/-! ### Drag controller (`_onMouseDown` snapshot, `_onMouseMove`, `_onMouseUp`) -/

/-- The width pair computed by `_onMouseMove` for the dragged boundary:
candidates `initial ± deltaPercent`, snapped to 0.1% (`round10`), then the
two sequential floor clamps with `minWidth = 0.5`. -/
def moveWidths (L R delta : ℚ) : ℚ × ℚ :=
  let l0 := round10 (L + delta)
  let r0 := round10 (R - delta)
  let l1 := if l0 < 1/2 then (1/2 : ℚ) else l0
  let r1 := if l0 < 1/2 then r0 + (l0 - 1/2) else r0
  if r1 < 1/2 then (l1 + (r1 - 1/2), 1/2) else (l1, r1)

/-- The `_resizeState` captured by `_onMouseDown`: boundary index, pointer
start, table pixel width, the width snapshot, and the current
`style.width` strings of the captured `col` elements. -/
structure DragSession where
  columnIndex : Nat
  startX : ℚ
  tableWidth : ℚ
  initialWidths : List ℚ
  colStyles : List String
  deriving Repr, DecidableEq

/-- The pointer delta `deltaPercent = (event.clientX - startX) / tableWidth * 100`. -/
def dragDelta (s : DragSession) (clientX : ℚ) : ℚ :=
  (clientX - s.startX) / s.tableWidth * 100

/-- One `_onMouseMove` step: the updated session (new col styles) together
with the tooltip widths (`parseFloat(col.style.width) || 0` over all
cols), or `none` when the `rightColIndex >= cols.length` guard returns. -/
def stepMove (s : DragSession) (clientX : ℚ) : DragSession × Option (List ℚ) :=
  let li := s.columnIndex
  let ri := li + 1
  if ri ≥ s.colStyles.length then (s, none)
  else
    let L := s.initialWidths.getD li 0
    let R := s.initialWidths.getD ri 0
    let p := moveWidths L R (dragDelta s clientX)
    let styles := (s.colStyles.set li (toFixed2 p.1 ++ "%")).set ri (toFixed2 p.2 ++ "%")
    ({ s with colStyles := styles }, some (styles.map (fun c => (parseJsFloat c).getD 0)))

/-- A run of pointer-move events within one drag session. -/
def runMoves (s : DragSession) (xs : List ℚ) : DragSession :=
  xs.foldl (fun st x => (stepMove st x).1) s

/-! ### Width observation defaults
(`_createHandlesForTable`, `_onMouseDown`, `_onDoubleClick`) -/

/-- Handle positioning (`_createHandlesForTable`):
`parseFloat(col.style.width) || (100 / cols.length)` — the default applies
exactly when `parseFloat` gives `NaN` (modelled `none`) or `0`. -/
def handleColWidth (style : String) (n : Nat) : ℚ :=
  match parseJsFloat style with
  | some v => if v = 0 then 100 / (n : ℚ) else v
  | none => 100 / (n : ℚ)

/-- The test `width.endsWith('%')`: a one-character suffix test, i.e. the last
character is `%`. -/
def endsWithPercent (s : String) : Bool := s.data.getLast? = some '%'

/-- Drag-start snapshot (`_onMouseDown`): a width counts only when the
style string is nonempty and ends in `%`; otherwise `100 / cols.length`.
`none` models a `NaN` entry (percent-suffixed but unparsable). -/
def snapshotColWidth (style : String) (n : Nat) : Option ℚ :=
  if style ≠ "" ∧ endsWithPercent style then parseJsFloat style
  else some (100 / (n : ℚ))

/-- Exact-value editor initial values (`_onDoubleClick`): same rule as the
drag-start snapshot. -/
def popoverColWidth (style : String) (n : Nat) : Option ℚ :=
  if style ≠ "" ∧ endsWithPercent style then parseJsFloat style
  else some (100 / (n : ℚ))

/-! ### WidthList serialization (`widths.join(',')` / `split(',')`) -/

/-- JavaScript `Array.prototype.join(',')` on the underlying character lists. -/
def jsJoin : List (List Char) → List Char
  | [] => []
  | [x] => x
  | x :: y :: t => x ++ ',' :: jsJoin (y :: t)

/-- Accumulator loop of `String.prototype.split(',')`. -/
def jsSplitAux : List Char → List Char → List (List Char)
  | [], acc => [acc.reverse]
  | c :: cs, acc =>
    if c = ',' then acc.reverse :: jsSplitAux cs []
    else jsSplitAux cs (c :: acc)

/-- JavaScript `String.prototype.split(',')` (so `jsSplit [] = [[]]`, as in JS). -/
def jsSplit (s : List Char) : List (List Char) := jsSplitAux s []

/-- String-level `join(',')`. -/
def jsJoinS (l : List String) : String := String.mk (jsJoin (l.map String.data))

/-- String-level `split(',')`. -/
def jsSplitS (s : String) : List String := (jsSplit s.data).map String.mk

/-! ### ModelBinder (`_updateModel`) -/

/-- Opaque identity of a model table node. -/
abbrev TableId := Nat

/-- What `_updateModel`'s fallback loop observes about one document root:
whether `view.document.getRoot(rootName)` exists, whether
`mapViewToDom` yields a DOM root, whether that root `contains` the
resized table, the positional index of the table among the root's DOM
tables (`none` models `tableIndexInRoot < 0`), and the root's model
tables in document order. -/
structure RootInfo where
  hasViewRoot : Bool
  hasDomRoot : Bool
  containsTable : Bool
  tableIndexInRoot : Option Nat
  modelTables : List TableId
  deriving Repr, DecidableEq

/-- The structural fallback of `_updateModel`: walk the roots in order;
`continue` on a missing view root, missing DOM root, failed containment
check or missing index; take the model table at the DOM index when it is
in range, else keep walking. -/
def fallbackResolve : List RootInfo → Option TableId
  | [] => none
  | r :: rs =>
    if r.hasViewRoot = false then fallbackResolve rs
    else if r.hasDomRoot = false ∨ r.containsTable = false then fallbackResolve rs
    else
      match r.tableIndexInRoot with
      | none => fallbackResolve rs
      | some i =>
        match (r.modelTables).get? i with
        | some t => some t
        | none => fallbackResolve rs

/-- The whole resolution chain: the direct DOM→view→model mapping
(`domToView` / `mapDomToView` then `mapper.toModelElement`, collapsed to
its optional result) first, the structural fallback only if it failed. -/
def resolveModelTable (direct : Option TableId) (roots : List RootInfo) : Option TableId :=
  match direct with
  | some t => some t
  | none => fallbackResolve roots

/-- A model table: identity plus its attribute list. -/
structure MTable where
  id : TableId
  attrs : List (String × String)
  deriving Repr, DecidableEq

/-- The model writer's `setAttribute`: replace the value if the key is present,
append the pair otherwise. -/
def setAttr (attrs : List (String × String)) (k v : String) : List (String × String) :=
  if attrs.any (fun p => p.1 = k) then
    attrs.map (fun p => if p.1 = k then (k, v) else p)
  else attrs ++ [(k, v)]

/-- ModelBinder commit `_updateModel`: join the width strings with `','`; if resolution
fails, return with the model untouched; otherwise set the single
`columnWidths` attribute on the resolved table.  The function is total:
the JS `try`/`catch` lets no exception escape. -/
def updateModel (model : List MTable) (direct : Option TableId) (roots : List RootInfo)
    (widths : List String) : List MTable :=
  let widthString := jsJoinS widths
  match resolveModelTable direct roots with
  | none => model
  | some tid =>
    model.map (fun t => if t.id = tid then { t with attrs := setAttr t.attrs "columnWidths" widthString } else t)

/-! ### Exact-value editor commit (`_applyWidths`) -/

/-- The two-decimal percent strings `_applyWidths` builds from the
entered numbers (`` `${w.toFixed(2)}%` ``). -/
def applyWidthsStrings (ws : List ℚ) : List String :=
  ws.map (fun w => toFixed2 w ++ "%")

/-- The single attribute string `_updateModel` persists for an
exact-value-editor commit.  No sum-of-widths condition appears anywhere
on this path. -/
def applyWidthsAttr (ws : List ℚ) : String := jsJoinS (applyWidthsStrings ws)

/-- The DOM side of `_applyWidths`: `widths.forEach((width, i) => { if
(cols[i]) cols[i].style.width = ... })` — extra cols keep their width,
extra widths are ignored. -/
def applyWidthsDom (cols : List String) (ws : List ℚ) : List String :=
  cols.mapIdx (fun i c => match ws.get? i with
    | some w => toFixed2 w ++ "%"
    | none => c)

/-! ### Downcast converters (`_registerConverters`) -/

/-- A `col` element of a column-definition block: its `style` attribute,
its optional mirrored `width` attribute, and any further attributes. -/
structure Col where
  style : String
  widthAttr : Option String
  extra : List (String × String)
  deriving Repr, DecidableEq

/-- A child of the view `table`: a `colgroup` or anything else (rows,
captions), kept opaque. -/
inductive TChild where
  | cg (cols : List Col)
  | other (id : Nat)
  deriving Repr, DecidableEq

/-- Is a table child a `colgroup`? -/
def TChild.isCg : TChild → Bool
  | .cg _ => true
  | .other _ => false

/-- The view `table` element: children, class set, `style` attribute
(`""` models an absent attribute) and all other attributes. -/
structure VTable where
  children : List TChild
  classes : List String
  style : String
  otherAttrs : List (String × String)
  deriving Repr, DecidableEq

/-- Does the character list `s` contain `pat` — `String.prototype.includes`. -/
def hasSub (pat s : List Char) : Bool := s.tails.any (fun t => pat.isPrefixOf t)

/-- The col built by the editing downcast:
`style = width:w;` plus the mirrored `width` attribute. -/
def mkEditingCol (w : String) : Col := ⟨"width:" ++ w ++ ";", some w, []⟩

/-- The col built by the data downcast: inline style only. -/
def mkDataCol (w : String) : Col := ⟨"width:" ++ w ++ ";", none, []⟩

/-- In-place update of an existing col by the editing downcast:
`setAttribute('style', ...)` and `setAttribute('width', ...)`. -/
def updCol (w : String) (c : Col) : Col :=
  { c with style := "width:" ++ w ++ ";", widthAttr := some w }

/-- Decompose a child list around its LAST colgroup (the JS loop `for
(const child ...) if (child.name === 'colgroup') existingColgroup = child`
keeps the last one): `some (pre, cols, post)` with `post` colgroup-free. -/
def splitLastCg : List TChild → Option (List TChild × List Col × List TChild)
  | [] => none
  | c :: cs =>
    match splitLastCg cs with
    | some (pre, g, post) => some (c :: pre, g, post)
    | none =>
      match c with
      | .cg cols => some ([], cols, cs)
      | .other _ => none

/-- The children rewrite of the editing downcast: update the last
colgroup in place when its col count matches the widths, replace it by a
fresh colgroup at position 0 when it does not, create one at position 0
when there is none. -/
def edChildren (ws : List String) (cs : List TChild) : List TChild :=
  match splitLastCg cs with
  | none => TChild.cg (ws.map mkEditingCol) :: cs
  | some (pre, cols, post) =>
    if cols.length = ws.length then
      pre ++ TChild.cg (List.zipWith updCol ws cols) :: post
    else
      TChild.cg (ws.map mkEditingCol) :: (pre ++ post)

/-- The view writer's `addClass`: set semantics. -/
def addClassJs (cls : String) (classes : List String) : List String :=
  if cls ∈ classes then classes else classes ++ [cls]

/-- The `table-layout:fixed` hint: appended unless the current style
already mentions `table-layout`. -/
def ensureFixedLayout (s : String) : String :=
  if hasSub "table-layout".data s.data then s
  else s ++ (if s ≠ "" then ";" else "") ++ "table-layout:fixed;"

/-- The editing downcast (`attribute:columnWidths:table`,
`editingDowncast`) acting on the view table. -/
def editingDowncastTable (ws : List String) (t : VTable) : VTable :=
  { t with
    children := edChildren ws t.children,
    classes := addClassJs "ck-table-resized" t.classes,
    style := ensureFixedLayout t.style }

/-- The data downcast (`attribute:columnWidths:table`, `dataDowncast`):
remove every existing colgroup, insert one fresh colgroup at position 0
whose cols carry only the inline style; classes and style untouched. -/
def dataDowncastTable (ws : List String) (t : VTable) : VTable :=
  { t with
    children := TChild.cg (ws.map mkDataCol) :: t.children.filter (fun c => !c.isCg) }

/-- Number of colgroup children of a table. -/
def countCg (cs : List TChild) : Nat := (cs.filter TChild.isCg).length

/-! ### Helper lemmas: 0.1% snapping -/

theorem round10_le (x : ℚ) : round10 x ≤ x + 1/20 := by
  have h := Int.floor_le (x * 10 + 1/2)
  unfold round10 jsRound
  rw [div_le_iff₀ (by norm_num : (0:ℚ) < 10)]
  linarith

theorem lt_round10 (x : ℚ) : x - 1/20 < round10 x := by
  have h := Int.sub_one_lt_floor (x * 10 + 1/2)
  unfold round10 jsRound
  rw [lt_div_iff₀ (by norm_num : (0:ℚ) < 10)]
  linarith

theorem round10_mul_ten_int (x : ℚ) : round10 x * 10 = (jsRound (x * 10) : ℚ) := by
  unfold round10; field_simp

/-- The two snapped candidates of a move; their sum is what clamping
preserves. -/
theorem moveWidths_sum (L R d : ℚ) :
    (moveWidths L R d).1 + (moveWidths L R d).2 = round10 (L + d) + round10 (R - d) := by
  simp only [moveWidths]
  split_ifs <;> simp <;> ring

/-- Both snapped candidates together stay within 0.1 of the snapshot sum. -/
theorem round10_pair_close (L R d : ℚ) :
    |round10 (L + d) + round10 (R - d) - (L + R)| ≤ 1/10 := by
  have h1 := round10_le (L + d)
  have h2 := round10_le (R - d)
  have h3 := lt_round10 (L + d)
  have h4 := lt_round10 (R - d)
  rw [abs_le]
  constructor <;> linarith

/-- When both snapshot widths respect the floor, the snapped pair sum is
at least 1 (it is an integer number of tenths strictly above 0.9). -/
theorem round10_pair_ge_one (L R d : ℚ) (hL : 1/2 ≤ L) (hR : 1/2 ≤ R) :
    1 ≤ round10 (L + d) + round10 (R - d) := by
  have h3 := lt_round10 (L + d)
  have h4 := lt_round10 (R - d)
  have hgt : (9 : ℚ) < ((jsRound ((L + d) * 10) + jsRound ((R - d) * 10) : ℤ) : ℚ) := by
    push_cast
    have e1 := round10_mul_ten_int (L + d)
    have e2 := round10_mul_ten_int (R - d)
    nlinarith
  have hint9 : (9 : ℤ) < jsRound ((L + d) * 10) + jsRound ((R - d) * 10) := by
    exact_mod_cast hgt
  have hint : (10 : ℤ) ≤ jsRound ((L + d) * 10) + jsRound ((R - d) * 10) := by omega
  have e1 := round10_mul_ten_int (L + d)
  have e2 := round10_mul_ten_int (R - d)
  have : (10 : ℚ) ≤ round10 (L + d) * 10 + round10 (R - d) * 10 := by
    rw [e1, e2]; exact_mod_cast hint
  linarith

/-- When the left candidate falls under the floor (and both snapshot
widths respect it), only the first clamp fires. -/
theorem moveWidths_left_clamped (L R d : ℚ) (hL : 1/2 ≤ L) (hR : 1/2 ≤ R)
    (h : round10 (L + d) < 1/2) :
    moveWidths L R d = (1/2, round10 (L + d) + round10 (R - d) - 1/2) := by
  have hsum := round10_pair_ge_one L R d hL hR
  simp only [moveWidths]
  rw [if_pos h, if_pos h, if_neg (by linarith)]
  exact Prod.ext rfl (by ring)

/-- When the right candidate falls under the floor (and both snapshot
widths respect it), only the second clamp fires. -/
theorem moveWidths_right_clamped (L R d : ℚ) (hL : 1/2 ≤ L) (hR : 1/2 ≤ R)
    (h : round10 (R - d) < 1/2) :
    moveWidths L R d = (round10 (L + d) + round10 (R - d) - 1/2, 1/2) := by
  have hsum := round10_pair_ge_one L R d hL hR
  have hl : ¬ round10 (L + d) < 1/2 := by linarith
  simp only [moveWidths]
  rw [if_neg hl, if_neg hl, if_pos h]
  exact Prod.ext (by ring) rfl

/-- When neither candidate falls under the floor, no clamp fires. -/
theorem moveWidths_no_clamp (L R d : ℚ)
    (hl : ¬ round10 (L + d) < 1/2) (hr : ¬ round10 (R - d) < 1/2) :
    moveWidths L R d = (round10 (L + d), round10 (R - d)) := by
  simp only [moveWidths]
  rw [if_neg hl, if_neg hl, if_neg hr]

/-- Floor preservation: when both snapshot widths are at least 0.5%, so
are both widths written by the move. -/
theorem moveWidths_floor (L R d : ℚ) (hL : 1/2 ≤ L) (hR : 1/2 ≤ R) :
    1/2 ≤ (moveWidths L R d).1 ∧ 1/2 ≤ (moveWidths L R d).2 := by
  have hsum := round10_pair_ge_one L R d hL hR
  by_cases h1 : round10 (L + d) < 1/2
  · rw [moveWidths_left_clamped L R d hL hR h1]
    constructor
    · norm_num
    · simp only; linarith
  · by_cases h2 : round10 (R - d) < 1/2
    · rw [moveWidths_right_clamped L R d hL hR h2]
      constructor
      · simp only; linarith
      · norm_num
    · rw [moveWidths_no_clamp L R d h1 h2]
      exact ⟨by simpa using not_lt.mp h1, by simpa using not_lt.mp h2⟩

/-! ### Helper lemmas: the pointer-move state machine -/

theorem runMoves_nil (s : DragSession) : runMoves s [] = s := rfl

theorem runMoves_cons (s : DragSession) (x : ℚ) (xs : List ℚ) :
    runMoves s (x :: xs) = runMoves (stepMove s x).1 xs := rfl

theorem runMoves_append_single (s : DragSession) (xs : List ℚ) (x : ℚ) :
    runMoves s (xs ++ [x]) = (stepMove (runMoves s xs) x).1 := by
  simp [runMoves, List.foldl_append]

/-- A move step rewrites only the col styles; every other session field,
and the number of cols, is untouched. -/
theorem stepMove_invariants (s : DragSession) (x : ℚ) :
    (stepMove s x).1.columnIndex = s.columnIndex ∧
    (stepMove s x).1.startX = s.startX ∧
    (stepMove s x).1.tableWidth = s.tableWidth ∧
    (stepMove s x).1.initialWidths = s.initialWidths ∧
    (stepMove s x).1.colStyles.length = s.colStyles.length := by
  simp only [stepMove]
  split_ifs <;> simp

/-- A move step leaves every col other than the dragged pair alone. -/
theorem stepMove_other (s : DragSession) (x : ℚ) (j : Nat)
    (h1 : j ≠ s.columnIndex) (h2 : j ≠ s.columnIndex + 1) :
    (stepMove s x).1.colStyles[j]? = s.colStyles[j]? := by
  simp only [stepMove]
  split_ifs
  · rfl
  · simp only
    rw [List.getElem?_set_ne (Ne.symm h2), List.getElem?_set_ne (Ne.symm h1)]

theorem runMoves_invariants (s : DragSession) (xs : List ℚ) :
    (runMoves s xs).columnIndex = s.columnIndex ∧
    (runMoves s xs).startX = s.startX ∧
    (runMoves s xs).tableWidth = s.tableWidth ∧
    (runMoves s xs).initialWidths = s.initialWidths ∧
    (runMoves s xs).colStyles.length = s.colStyles.length := by
  induction xs generalizing s with
  | nil => simp [runMoves_nil]
  | cons x xs ih =>
    rw [runMoves_cons]
    obtain ⟨a, b, c, d, e⟩ := ih (stepMove s x).1
    obtain ⟨a', b', c', d', e'⟩ := stepMove_invariants s x
    exact ⟨a.trans a', b.trans b', c.trans c', d.trans d', e.trans e'⟩

theorem runMoves_other (s : DragSession) (xs : List ℚ) (j : Nat)
    (h1 : j ≠ s.columnIndex) (h2 : j ≠ s.columnIndex + 1) :
    (runMoves s xs).colStyles[j]? = s.colStyles[j]? := by
  induction xs generalizing s with
  | nil => simp [runMoves_nil]
  | cons x xs ih =>
    rw [runMoves_cons]
    have hidx := (stepMove_invariants s x).1
    refine (ih (stepMove s x).1 ?_ ?_).trans (stepMove_other s x j h1 h2)
    · rw [hidx]; exact h1
    · rw [hidx]; exact h2

/-- Evaluation form of `toFixed2` for nonnegative inputs. -/
theorem toFixed2_of_nonneg (x : ℚ) (hx : 0 ≤ x) :
    toFixed2 x =
      toString ((⌊x * 100 + 1/2⌋).toNat / 100) ++ "." ++
        twoDigits ((⌊x * 100 + 1/2⌋).toNat % 100) := by
  simp only [toFixed2, jsRound, abs_of_nonneg hx, if_neg (not_lt.mpr hx)]
  rfl

/-- The widths a non-guarded move writes to the two cols at the dragged
boundary. -/
theorem stepMove_writes (s : DragSession) (x : ℚ)
    (hidx : s.columnIndex + 1 < s.colStyles.length) :
    (stepMove s x).1.colStyles[s.columnIndex]? =
      some (toFixed2 (moveWidths (s.initialWidths.getD s.columnIndex 0)
        (s.initialWidths.getD (s.columnIndex + 1) 0) (dragDelta s x)).1 ++ "%") ∧
    (stepMove s x).1.colStyles[s.columnIndex + 1]? =
      some (toFixed2 (moveWidths (s.initialWidths.getD s.columnIndex 0)
        (s.initialWidths.getD (s.columnIndex + 1) 0) (dragDelta s x)).2 ++ "%") := by
  simp only [stepMove]
  rw [if_neg (by omega)]
  constructor
  · simp only
    rw [List.getElem?_set_ne (by omega), List.getElem?_set_eq_of_lt _ (by omega)]
  · simp only
    rw [List.getElem?_set_eq_of_lt _ (by simpa using hidx)]

/-- C1.  For every drag session and every pointer-move event within it,
the two widths written to the column-definition nodes for the dragged
boundary's left and right columns sum to the same value as the snapshot
widths of those two columns taken at drag start, to within rounding
(0.1%), regardless of how many intermediate pointer-move events occurred;
no other column's width is changed by a pointer-move. -/
theorem drag_pair_sum_within_rounding (s : DragSession) (xs : List ℚ) (x : ℚ)
    (hidx : s.columnIndex + 1 < s.colStyles.length) :
    (runMoves s (xs ++ [x])).colStyles[s.columnIndex]? =
      some (toFixed2 (moveWidths (s.initialWidths.getD s.columnIndex 0)
        (s.initialWidths.getD (s.columnIndex + 1) 0) (dragDelta s x)).1 ++ "%") ∧
    (runMoves s (xs ++ [x])).colStyles[s.columnIndex + 1]? =
      some (toFixed2 (moveWidths (s.initialWidths.getD s.columnIndex 0)
        (s.initialWidths.getD (s.columnIndex + 1) 0) (dragDelta s x)).2 ++ "%") ∧
    |(moveWidths (s.initialWidths.getD s.columnIndex 0)
        (s.initialWidths.getD (s.columnIndex + 1) 0) (dragDelta s x)).1 +
      (moveWidths (s.initialWidths.getD s.columnIndex 0)
        (s.initialWidths.getD (s.columnIndex + 1) 0) (dragDelta s x)).2 -
      (s.initialWidths.getD s.columnIndex 0 + s.initialWidths.getD (s.columnIndex + 1) 0)| ≤ 1/10 ∧
    ∀ j, j ≠ s.columnIndex → j ≠ s.columnIndex + 1 →
      (runMoves s (xs ++ [x])).colStyles[j]? = s.colStyles[j]? := by
  obtain ⟨hci, hsx, htw, hiw, hlen⟩ := runMoves_invariants s xs
  rw [runMoves_append_single]
  have hidx' : (runMoves s xs).columnIndex + 1 < (runMoves s xs).colStyles.length := by
    rw [hci, hlen]; exact hidx
  have hdelta : dragDelta (runMoves s xs) x = dragDelta s x := by
    simp [dragDelta, hsx, htw]
  obtain ⟨w1, w2⟩ := stepMove_writes (runMoves s xs) x hidx'
  rw [hci, hiw, hdelta] at w1 w2
  refine ⟨w1, w2, ?_, ?_⟩
  · rw [moveWidths_sum]
    exact round10_pair_close _ _ _
  · intro j hj1 hj2
    have h1 : j ≠ (runMoves s xs).columnIndex := by rw [hci]; exact hj1
    have h2 : j ≠ (runMoves s xs).columnIndex + 1 := by rw [hci]; exact hj2
    exact (stepMove_other (runMoves s xs) x j h1 h2).trans (runMoves_other s xs j hj1 hj2)

/-- Witness for C1: a 100px-wide two-column table at [30%, 10%], one move
of 15px; the written pair is ["39.50%", "0.50%"], summing to the snapshot
40%. -/
theorem drag_pair_sum_within_rounding_witness :
    (runMoves ⟨0, 0, 100, [30, 10], ["30.00%", "10.00%"]⟩ [15]).colStyles[0]? = some "39.50%" ∧
    (runMoves ⟨0, 0, 100, [30, 10], ["30.00%", "10.00%"]⟩ [15]).colStyles[1]? = some "0.50%" := by
  obtain ⟨h1, h2, h3, h4⟩ :=
    drag_pair_sum_within_rounding ⟨0, 0, 100, [30, 10], ["30.00%", "10.00%"]⟩ [] 15 (by norm_num)
  have em1 : (moveWidths (([30, 10] : List ℚ).getD 0 0) (([30, 10] : List ℚ).getD (0 + 1) 0)
      (dragDelta ⟨0, 0, 100, [30, 10], ["30.00%", "10.00%"]⟩ 15)).1 = 79/2 := by
    norm_num [moveWidths, round10, jsRound, dragDelta]
  have em2 : (moveWidths (([30, 10] : List ℚ).getD 0 0) (([30, 10] : List ℚ).getD (0 + 1) 0)
      (dragDelta ⟨0, 0, 100, [30, 10], ["30.00%", "10.00%"]⟩ 15)).2 = 1/2 := by
    norm_num [moveWidths, round10, jsRound, dragDelta]
  rw [em1] at h1
  rw [em2] at h2
  have f1 : toFixed2 (79/2) = "39.50" := by
    rw [toFixed2_of_nonneg _ (by norm_num)]
    norm_num
    rfl
  have f2 : toFixed2 (1/2) = "0.50" := by
    rw [toFixed2_of_nonneg _ (by norm_num)]
    norm_num
    rfl
  rw [f1] at h1
  rw [f2] at h2
  exact ⟨h1, h2⟩

/-- C9.  For every pointer-move during a drag whose session records the
last column boundary but whose boundary index plus one is not less than
the current number of column-definition entries, the move handler changes
nothing: no column width is written and no tooltip update occurs
(`if (rightColIndex >= cols.length) return;`). -/
theorem move_out_of_range_guard (s : DragSession) (x : ℚ)
    (h : s.colStyles.length ≤ s.columnIndex + 1) :
    stepMove s x = (s, none) := by
  simp only [stepMove]
  rw [if_pos (by omega)]

/-- Witness for C9: boundary index 1 in a two-column session — the step
returns the session unchanged with no tooltip. -/
theorem move_out_of_range_guard_witness :
    (["50.00%", "50.00%"] : List String).length ≤ 1 + 1 ∧
    stepMove ⟨1, 0, 100, [50, 50], ["50.00%", "50.00%"]⟩ 10 =
      (⟨1, 0, 100, [50, 50], ["50.00%", "50.00%"]⟩, none) :=
  ⟨by decide, move_out_of_range_guard ⟨1, 0, 100, [50, 50], ["50.00%", "50.00%"]⟩ 10 (by decide)⟩

/-- C2 counterexample.  The claim says a below-floor candidate is clamped
to exactly 0.5%.  With snapshot pair [0.3%, 0.6%] (below-floor snapshot
widths are reachable: `_applyWidths` commits unchecked popover input to
the col styles, and `_onMouseDown` reads them back) and pointer delta 0,
the left candidate 0.3% is below the floor, yet the two sequential clamps
leave the left column at 0.4%, not 0.5%. -/
theorem floor_clamp_exact_half_counterexample :
    round10 ((3/10 : ℚ) + 0) < 1/2 ∧
    ¬ (round10 ((3/10 : ℚ) + 0) < 1/2 → (moveWidths (3/10) (3/5) 0).1 = 1/2) := by
  have h1 : round10 ((3/10 : ℚ) + 0) < 1/2 := by norm_num [round10, jsRound]
  have h2 : (moveWidths (3/10) (3/5) 0).1 ≠ 1/2 := by norm_num [moveWidths, round10, jsRound]
  exact ⟨h1, fun h => h2 (h h1)⟩

/-- C2 (amended).  For every pointer-move during a drag where one
candidate width (the 0.1%-rounded `snapshot ± delta`) falls below the
0.5% floor, PROVIDED both snapshot widths of the dragged pair are at
least the 0.5% floor, the handler clamps that candidate to exactly 0.5%
and adds the shortfall to the other column of the pair, so that the
pair's combined (rounded) width is preserved; in particular a drag
pushing a 10% column by delta −15% yields 0.5% for that column with the
adjacent column absorbing the remainder (see the witness). -/
theorem floor_clamp_absorbs_shortfall (L R d : ℚ) (hL : 1/2 ≤ L) (hR : 1/2 ≤ R) :
    (round10 (L + d) < 1/2 →
      moveWidths L R d = (1/2, round10 (L + d) + round10 (R - d) - 1/2) ∧
      1/2 ≤ round10 (L + d) + round10 (R - d) - 1/2) ∧
    (round10 (R - d) < 1/2 →
      moveWidths L R d = (round10 (L + d) + round10 (R - d) - 1/2, 1/2) ∧
      1/2 ≤ round10 (L + d) + round10 (R - d) - 1/2) ∧
    (moveWidths L R d).1 + (moveWidths L R d).2 = round10 (L + d) + round10 (R - d) := by
  have hsum := round10_pair_ge_one L R d hL hR
  refine ⟨fun h => ⟨moveWidths_left_clamped L R d hL hR h, by linarith⟩,
    fun h => ⟨moveWidths_right_clamped L R d hL hR h, by linarith⟩,
    moveWidths_sum L R d⟩

/-- Witness for C2 (amended): the spec scenario — right column at 10%
pushed down by 15% (pointer delta +15%): it is clamped to 0.5% and the
left column absorbs the remainder (30% becomes 39.5%; the pair sum 40%
is preserved). -/
theorem floor_clamp_absorbs_shortfall_witness :
    (1/2 : ℚ) ≤ 30 ∧ (1/2 : ℚ) ≤ 10 ∧ round10 ((10 : ℚ) - 15) < 1/2 ∧
    moveWidths 30 10 15 = (79/2, 1/2) ∧ (79/2 : ℚ) + 1/2 = 30 + 10 := by
  have h := ((floor_clamp_absorbs_shortfall 30 10 15 (by norm_num) (by norm_num)).2.1
    (by norm_num [round10, jsRound])).1
  refine ⟨by norm_num, by norm_num, by norm_num [round10, jsRound], ?_, by norm_num⟩
  rw [h]
  norm_num [round10, jsRound]

/-- C3 counterexample.  The claim says every committed column width is at
least 0.5% on both commit paths; but the Apply path (`_applyWidths`)
commits the popover numbers verbatim (the `min="0.5"` markup on the input
is not enforced against typed values): entering [0.2, 99.8] commits the
entry "0.20%", i.e. 0.2% < 0.5%. -/
theorem commit_floor_counterexample :
    applyWidthsStrings [1/5, 499/5] = ["0.20%", "99.80%"] ∧
    parseJsFloat "0.20%" = some (1/5) ∧ (1/5 : ℚ) < 1/2 := by
  have f1 : toFixed2 (1/5) = "0.20" := by
    rw [toFixed2_of_nonneg _ (by norm_num)]; norm_num; rfl
  have f2 : toFixed2 (499/5) = "99.80" := by
    rw [toFixed2_of_nonneg _ (by norm_num)]; norm_num; rfl
  refine ⟨?_, ?_, by norm_num⟩
  · simp only [applyWidthsStrings, List.map_cons, List.map_nil]
    rw [f1, f2]
    rfl
  · simp [parseJsFloat, takeDigits, digitsToNat]
    norm_num

/-- C3 (amended).  The widths the drag handler itself writes respect the
floor: for every pointer-move, if both snapshot widths of the dragged
pair are at least 0.5%, both written widths are at least 0.5%.  The
commit paths (pointer-up reads back whatever the col styles contain;
Apply serializes the popover numbers verbatim) add no floor enforcement
of their own, so a commit can contain widths below 0.5% (see the
counterexample). -/
theorem move_writes_respect_floor (L R d : ℚ) (hL : 1/2 ≤ L) (hR : 1/2 ≤ R) :
    1/2 ≤ (moveWidths L R d).1 ∧ 1/2 ≤ (moveWidths L R d).2 :=
  moveWidths_floor L R d hL hR

/-- Witness for C3 (amended): dragging the [30%, 10%] pair by +15% writes
[39.5%, 0.5%], both at least 0.5%. -/
theorem move_writes_respect_floor_witness :
    (1/2 : ℚ) ≤ 30 ∧ (1/2 : ℚ) ≤ 10 ∧
    1/2 ≤ (moveWidths 30 10 15).1 ∧ 1/2 ≤ (moveWidths 30 10 15).2 := by
  obtain ⟨a, b⟩ := move_writes_respect_floor 30 10 15 (by norm_num) (by norm_num)
  exact ⟨by norm_num, by norm_num, a, b⟩

/-- C4.  For every commit attempt where the direct view-to-model mapping
yields no model table (`direct = none`) and the structural fallback
(root walk, containment check, positional index match) also yields none,
`_updateModel` returns without writing any model attribute — the model is
unchanged.  `updateModel` is a total function, mirroring that the JS
`try`/`catch` plus the early `return` let no exception propagate. -/
theorem resolution_failure_no_write (model : List MTable) (roots : List RootInfo)
    (ws : List String) (hfb : fallbackResolve roots = none) :
    updateModel model none roots ws = model := by
  simp only [updateModel, resolveModelTable, hfb]

/-- Witness for C4: four roots failing for each possible reason (no view
root; no DOM root; no index; index out of range) — the model is
untouched. -/
theorem resolution_failure_no_write_witness :
    fallbackResolve [⟨false, true, true, some 0, [5]⟩, ⟨true, false, true, some 0, [5]⟩,
      ⟨true, true, true, none, [5]⟩, ⟨true, true, true, some 3, [5]⟩] = none ∧
    updateModel [⟨7, [("k", "v")]⟩] none
      [⟨false, true, true, some 0, [5]⟩, ⟨true, false, true, some 0, [5]⟩,
       ⟨true, true, true, none, [5]⟩, ⟨true, true, true, some 3, [5]⟩]
      ["40.00%", "60.00%"] = [⟨7, [("k", "v")]⟩] :=
  ⟨by decide,
   resolution_failure_no_write [⟨7, [("k", "v")]⟩]
     [⟨false, true, true, some 0, [5]⟩, ⟨true, false, true, some 0, [5]⟩,
      ⟨true, true, true, none, [5]⟩, ⟨true, true, true, some 3, [5]⟩]
     ["40.00%", "60.00%"] (by decide)⟩

/-- Shared evaluation: the attribute string `_applyWidths` persists for
[30, 30, 30, 30]. -/
theorem applyWidthsAttr_thirty :
    applyWidthsAttr [30, 30, 30, 30] = "30.00%,30.00%,30.00%,30.00%" := by
  have f : toFixed2 (30 : ℚ) = "30.00" := by
    rw [toFixed2_of_nonneg _ (by norm_num)]; norm_num; rfl
  simp only [applyWidthsAttr, applyWidthsStrings, List.map_cons, List.map_nil]
  rw [f]
  rfl

/-- C5 counterexample.  The persisted string keeps the `%` suffix on
every entry (`_applyWidths` builds `` `${w.toFixed(2)}%` `` and
`_updateModel` joins those): for [30, 30, 30, 30] it is
"30.00%,30.00%,30.00%,30.00%", not the claimed
"30.00,30.00,30.00,30.00". -/
theorem popover_commit_string_counterexample :
    applyWidthsAttr [30, 30, 30, 30] = "30.00%,30.00%,30.00%,30.00%" ∧
    applyWidthsAttr [30, 30, 30, 30] ≠ "30.00,30.00,30.00,30.00" := by
  refine ⟨applyWidthsAttr_thirty, ?_⟩
  rw [applyWidthsAttr_thirty]
  decide

/-- C5 (amended).  For every exact-value-editor commit the commit
proceeds regardless of the entered sum (no sum condition appears on the
path), and whenever resolution succeeds the single attribute persisted on
the model table is the comma-joined two-decimal PERCENT strings — for
[30, 30, 30, 30] exactly "30.00%,30.00%,30.00%,30.00%". -/
theorem popover_commit_regardless_of_sum (ws : List ℚ) (model : List MTable)
    (direct : Option TableId) (roots : List RootInfo) (tid : TableId)
    (h : resolveModelTable direct roots = some tid) :
    updateModel model direct roots (applyWidthsStrings ws) =
      model.map (fun t => if t.id = tid then
        { t with attrs := setAttr t.attrs "columnWidths" (applyWidthsAttr ws) } else t) ∧
    applyWidthsAttr [30, 30, 30, 30] = "30.00%,30.00%,30.00%,30.00%" := by
  constructor
  · simp only [updateModel, h, applyWidthsAttr]
  · exact applyWidthsAttr_thirty

/-- Witness for C5 (amended): a resolvable table with id 3; the commit of
[30, 30, 30, 30] (sum 120) writes the single `columnWidths` attribute. -/
theorem popover_commit_regardless_of_sum_witness :
    resolveModelTable (some 3) [] = some 3 ∧
    (updateModel [⟨3, []⟩] (some 3) [] (applyWidthsStrings [30, 30, 30, 30]) =
      [⟨3, [("columnWidths", applyWidthsAttr [30, 30, 30, 30])]⟩] ∧
    applyWidthsAttr [30, 30, 30, 30] = "30.00%,30.00%,30.00%,30.00%") := by
  have h := popover_commit_regardless_of_sum [30, 30, 30, 30] [⟨3, []⟩] (some 3) [] 3 rfl
  exact ⟨rfl, h.1.trans (by rfl), h.2⟩

/-! ### Helper lemmas: split / join round trip -/

theorem jsSplitAux_no_comma (e : List Char) (acc : List Char) (he : ',' ∉ e) :
    jsSplitAux e acc = [acc.reverse ++ e] := by
  induction e generalizing acc with
  | nil => simp [jsSplitAux]
  | cons c cs ih =>
    have hc : ¬ c = ',' := fun h => he (h ▸ List.mem_cons_self c cs)
    simp only [jsSplitAux, if_neg hc]
    rw [ih (c :: acc) (fun h => he (List.mem_cons_of_mem c h))]
    simp

theorem jsSplitAux_append_comma (e rest acc : List Char) (he : ',' ∉ e) :
    jsSplitAux (e ++ ',' :: rest) acc = (acc.reverse ++ e) :: jsSplitAux rest [] := by
  induction e generalizing acc with
  | nil => simp [jsSplitAux]
  | cons c cs ih =>
    have hc : ¬ c = ',' := fun h => he (h ▸ List.mem_cons_self c cs)
    simp only [List.cons_append, jsSplitAux, if_neg hc, List.append_eq]
    rw [ih (c :: acc) (fun h => he (List.mem_cons_of_mem c h))]
    simp

theorem jsSplit_jsJoin (L : List (List Char)) (hne : L ≠ [])
    (hc : ∀ e ∈ L, ',' ∉ e) : jsSplit (jsJoin L) = L := by
  induction L with
  | nil => exact absurd rfl hne
  | cons x t ih =>
    cases t with
    | nil =>
      simp only [jsJoin, jsSplit]
      rw [jsSplitAux_no_comma x [] (hc x (List.mem_cons_self x []))]
      simp
    | cons y t' =>
      simp only [jsJoin, jsSplit]
      rw [jsSplitAux_append_comma x _ [] (hc x (List.mem_cons_self x _))]
      simp only [List.reverse_nil, List.nil_append]
      have := ih (by simp) (fun e he' => hc e (List.mem_cons_of_mem x he'))
      rw [jsSplit] at this
      rw [this]

theorem string_mk_data (s : String) : String.mk s.data = s := rfl

/-- C8.  For every WidthList — an ordered, per-column (hence nonempty)
list of percentage entries, none containing a comma — serializing by
comma-joining (`widths.join(',')` in `_updateModel`) and then
deserializing by comma-splitting (`columnWidths.split(',')` in the
converters) yields the same ordered list of entries.  (Nonemptiness is
part of the WidthList notion — one entry per column — and matters: JS
`"".split(',')` is `[""]`, not `[]`.) -/
theorem widthlist_roundtrip (l : List String) (hne : l ≠ [])
    (hc : ∀ e ∈ l, ',' ∉ e.data) : jsSplitS (jsJoinS l) = l := by
  have hmapne : l.map String.data ≠ [] := by
    intro h
    exact hne (List.map_eq_nil.mp h)
  have hmapc : ∀ e ∈ l.map String.data, ',' ∉ e := by
    intro e he
    obtain ⟨s, hs, rfl⟩ := List.mem_map.mp he
    exact hc s hs
  simp only [jsSplitS, jsJoinS, jsSplit_jsJoin (l.map String.data) hmapne hmapc]
  rw [List.map_map]
  have : (String.mk ∘ String.data) = id := funext string_mk_data
  rw [this, List.map_id]

/-- Witness for C8: the two-entry WidthList ["30.00%", "70.00%"]
round-trips. -/
theorem widthlist_roundtrip_witness :
    (["30.00%", "70.00%"] : List String) ≠ [] ∧
    jsSplitS (jsJoinS ["30.00%", "70.00%"]) = ["30.00%", "70.00%"] :=
  ⟨by decide, widthlist_roundtrip ["30.00%", "70.00%"] (by decide) (by decide)⟩

/-- Shared evaluation: `parseFloat("50px") = 50`. -/
theorem parseJsFloat_fiftypx : parseJsFloat "50px" = some 50 := by
  simp [parseJsFloat, takeDigits, digitsToNat]

/-- C10 counterexample.  The claim says a non-percent inline style is
treated as 100/n uniformly.  But handle positioning
(`parseFloat(col.style.width) || (100 / cols.length)`) parses "50px" to
50 and uses it, while the drag-start snapshot (`endsWith('%')` test)
defaults the same style to 100/4 = 25. -/
theorem width_default_nonuniform_counterexample :
    handleColWidth "50px" 4 = 50 ∧ (50 : ℚ) ≠ 100 / (4 : ℚ) ∧
    snapshotColWidth "50px" 4 = some (100 / (4 : ℚ)) := by
  refine ⟨?_, by norm_num, ?_⟩
  · simp only [handleColWidth, parseJsFloat_fiftypx]
    norm_num
  · rw [snapshotColWidth, if_neg (by decide)]
    norm_num

/-- C10 (amended).  The drag-start snapshot and the exact-value editor
treat an entry whose style is empty or lacks the `%` suffix as
100/n percent; handle positioning instead defaults to 100/n exactly when
`parseFloat` of the style is NaN or 0, and otherwise uses the parsed
number even for a non-percent style (so "50px" positions as 50, not
100/n). -/
theorem width_default_rules (st : String) (n : Nat) (v : ℚ) :
    (¬(st ≠ "" ∧ endsWithPercent st) →
      snapshotColWidth st n = some (100 / (n : ℚ)) ∧
      popoverColWidth st n = some (100 / (n : ℚ))) ∧
    (parseJsFloat st = none → handleColWidth st n = 100 / (n : ℚ)) ∧
    (parseJsFloat st = some 0 → handleColWidth st n = 100 / (n : ℚ)) ∧
    (parseJsFloat st = some v → v ≠ 0 → handleColWidth st n = v) := by
  refine ⟨fun h => ?_, fun h => ?_, fun h => ?_, fun h hv => ?_⟩
  · rw [snapshotColWidth, if_neg h, popoverColWidth, if_neg h]
    exact ⟨rfl, rfl⟩
  · rw [handleColWidth, h]
  · rw [handleColWidth, h]
    simp
  · rw [handleColWidth, h]
    simp [hv]

/-- Witness for C10 (amended): "50px" defaults to 25 in the snapshot and
popover of a 4-column table but positions the handle at 50; the empty
style defaults everywhere. -/
theorem width_default_rules_witness :
    snapshotColWidth "50px" 4 = some (100 / (4 : ℚ)) ∧
    popoverColWidth "50px" 4 = some (100 / (4 : ℚ)) ∧
    handleColWidth "50px" 4 = 50 ∧
    handleColWidth "" 4 = 100 / (4 : ℚ) := by
  obtain ⟨g1, -, -, g4⟩ := width_default_rules "50px" 4 50
  obtain ⟨-, g2, -, -⟩ := width_default_rules "" 4 0
  obtain ⟨ha, hb⟩ := g1 (by decide)
  exact ⟨ha, hb, g4 parseJsFloat_fiftypx (by norm_num), g2 (by decide)⟩

/-! ### Helper lemmas: downcast converters -/

theorem splitLastCg_eq_none (cs : List TChild) (h : ∀ c ∈ cs, c.isCg = false) :
    splitLastCg cs = none := by
  induction cs with
  | nil => rfl
  | cons c cs ih =>
    simp only [splitLastCg]
    rw [ih (fun c' hc' => h c' (List.mem_cons_of_mem c hc'))]
    cases c with
    | cg cols => exact absurd (h _ (List.mem_cons_self _ _)) (by simp [TChild.isCg])
    | other i => rfl

theorem splitLastCg_decomp (pre : List TChild) (cols : List Col) (post : List TChild)
    (hpost : ∀ c ∈ post, c.isCg = false) :
    splitLastCg (pre ++ TChild.cg cols :: post) = some (pre, cols, post) := by
  induction pre with
  | nil =>
    simp only [List.nil_append, splitLastCg]
    rw [splitLastCg_eq_none post hpost]
  | cons c pre ih =>
    simp only [List.cons_append, splitLastCg, List.append_eq]
    rw [ih]

/-- In-place update form of the editing downcast's children rewrite. -/
theorem edChildren_update (ws : List String) (pre : List TChild) (cols : List Col)
    (post : List TChild) (hpost : ∀ c ∈ post, c.isCg = false)
    (hlen : cols.length = ws.length) :
    edChildren ws (pre ++ TChild.cg cols :: post) =
      pre ++ TChild.cg (List.zipWith updCol ws cols) :: post := by
  simp only [edChildren]
  rw [splitLastCg_decomp pre cols post hpost]
  simp only [if_pos hlen]

theorem addClassJs_mem (cls : String) (l : List String) : cls ∈ addClassJs cls l := by
  unfold addClassJs
  split
  · assumption
  · simp

theorem addClassJs_idem (cls : String) (l : List String) :
    addClassJs cls (addClassJs cls l) = addClassJs cls l := by
  unfold addClassJs
  by_cases h : cls ∈ l <;> simp [h]

theorem hasSub_append_of_right (p xs ys : List Char) (h : hasSub p ys = true) :
    hasSub p (xs ++ ys) = true := by
  induction xs with
  | nil => simpa using h
  | cons c cs ih =>
    simp only [hasSub, List.cons_append, List.tails_cons, List.any_cons, Bool.or_eq_true]
    exact Or.inr (by simpa [hasSub] using ih)

theorem string_data_append (a b : String) : (a ++ b).data = a.data ++ b.data := rfl

theorem hasSub_ensureFixedLayout (s : String) :
    hasSub "table-layout".data (ensureFixedLayout s).data = true := by
  unfold ensureFixedLayout
  split
  · assumption
  · rw [string_data_append]
    exact hasSub_append_of_right _ _ _ (by decide)

theorem ensureFixedLayout_idem (s : String) :
    ensureFixedLayout (ensureFixedLayout s) = ensureFixedLayout s := by
  rw [ensureFixedLayout, if_pos (hasSub_ensureFixedLayout s)]

theorem updCol_twice (w : String) (c : Col) : updCol w (updCol w c) = updCol w c := rfl

theorem zipWith_updCol_idem (ws : List String) (cols : List Col) :
    List.zipWith updCol ws (List.zipWith updCol ws cols) = List.zipWith updCol ws cols := by
  induction ws generalizing cols with
  | nil => rfl
  | cons w ws ih =>
    cases cols with
    | nil => rfl
    | cons c cs => simp only [List.zipWith_cons_cons, ih, updCol_twice]

/-- C6 counterexample.  The claim says the model-to-rendering conversion
removes all pre-existing column-definition blocks (collapsing
duplicates) and builds exactly one.  The editing downcast does not: with
two colgroups already in the table it updates the LAST one in place
(entry counts match) and leaves the first, so the converted table still
has two colgroup children. -/
theorem downcast_duplicate_blocks_counterexample :
    countCg (editingDowncastTable ["50.00%", "50.00%"]
      ⟨[TChild.cg [⟨"width:50.00%;", some "50.00%", []⟩, ⟨"width:50.00%;", some "50.00%", []⟩],
        TChild.cg [⟨"width:50.00%;", some "50.00%", []⟩, ⟨"width:50.00%;", some "50.00%", []⟩],
        TChild.other 0], [], "", []⟩).children = 2 ∧ (2 : Nat) ≠ 1 :=
  ⟨by decide, by decide⟩

/-- C6 (amended).  The DATA downcast removes all pre-existing
column-definition blocks (collapsing duplicates) and builds exactly one
block with exactly one style-only entry per stored width, changing no
class, style or other attribute.  The EDITING downcast ensures the
resized marker class and the `table-layout:fixed` style hint, alters no
other table attribute, and — when the table's last column-definition
block matches the stored width count — updates that block in place,
applying each width as both an inline style and a mirrored width
attribute on its entry, without collapsing any duplicate blocks. -/
theorem downcast_block_structure (ws : List String) (t : VTable) :
    ((dataDowncastTable ws t).children =
        TChild.cg (ws.map mkDataCol) :: t.children.filter (fun c => !c.isCg) ∧
      countCg (dataDowncastTable ws t).children = 1 ∧
      (dataDowncastTable ws t).classes = t.classes ∧
      (dataDowncastTable ws t).style = t.style ∧
      (dataDowncastTable ws t).otherAttrs = t.otherAttrs) ∧
    ("ck-table-resized" ∈ (editingDowncastTable ws t).classes ∧
      hasSub "table-layout".data (editingDowncastTable ws t).style.data = true ∧
      (editingDowncastTable ws t).otherAttrs = t.otherAttrs) ∧
    (∀ pre cols post, t.children = pre ++ TChild.cg cols :: post →
      (∀ c ∈ post, c.isCg = false) → cols.length = ws.length →
      (editingDowncastTable ws t).children =
        pre ++ TChild.cg (List.zipWith updCol ws cols) :: post) := by
  refine ⟨⟨rfl, ?_, rfl, rfl, rfl⟩, ⟨addClassJs_mem _ _, hasSub_ensureFixedLayout _, rfl⟩, ?_⟩
  · simp only [dataDowncastTable, countCg, List.filter_cons, TChild.isCg,
      List.filter_filter]
    simp
  · intro pre cols post hch hpost hlen
    simp only [editingDowncastTable, hch]
    exact edChildren_update ws pre cols post hpost hlen

/-- Witness for C6 (amended): a table with one stale two-entry block and
one row; the data downcast rebuilds a style-only block, the editing
downcast updates the block in place with style plus width attribute. -/
theorem downcast_block_structure_witness :
    (dataDowncastTable ["40.00%", "60.00%"]
        ⟨[TChild.cg [⟨"width:10.00%;", none, []⟩, ⟨"width:90.00%;", none, []⟩], TChild.other 7],
         ["a"], "color:red", [("border", "1")]⟩).children =
      [TChild.cg [⟨"width:40.00%;", none, []⟩, ⟨"width:60.00%;", none, []⟩], TChild.other 7] ∧
    (editingDowncastTable ["40.00%", "60.00%"]
        ⟨[TChild.cg [⟨"width:10.00%;", none, []⟩, ⟨"width:90.00%;", none, []⟩], TChild.other 7],
         ["a"], "color:red", [("border", "1")]⟩).children =
      [TChild.cg [⟨"width:40.00%;", some "40.00%", []⟩, ⟨"width:60.00%;", some "60.00%", []⟩],
       TChild.other 7] := by
  obtain ⟨⟨d1, -, -, -, -⟩, -, ed⟩ := downcast_block_structure ["40.00%", "60.00%"]
    ⟨[TChild.cg [⟨"width:10.00%;", none, []⟩, ⟨"width:90.00%;", none, []⟩], TChild.other 7],
     ["a"], "color:red", [("border", "1")]⟩
  exact ⟨d1.trans (by decide),
    (ed [] [⟨"width:10.00%;", none, []⟩, ⟨"width:90.00%;", none, []⟩] [TChild.other 7]
      rfl (by decide) (by decide)).trans (by decide)⟩

/-- C7.  Applying the editing-downcast conversion of an already-applied
WidthList a second time to a table whose (single) column-definition block
has the same number of entries as the stored widths is idempotent: it
produces an identical column-definition block and alters no attribute of
the table element. -/
theorem reapply_widthlist_idempotent (ws cls : List String) (st : String)
    (oa : List (String × String)) (pre post : List TChild) (cols : List Col)
    (_hpre : ∀ c ∈ pre, c.isCg = false) (hpost : ∀ c ∈ post, c.isCg = false)
    (hlen : cols.length = ws.length) :
    editingDowncastTable ws
        (editingDowncastTable ws ⟨pre ++ TChild.cg cols :: post, cls, st, oa⟩) =
      editingDowncastTable ws ⟨pre ++ TChild.cg cols :: post, cls, st, oa⟩ := by
  have h1 : editingDowncastTable ws ⟨pre ++ TChild.cg cols :: post, cls, st, oa⟩ =
      ⟨pre ++ TChild.cg (List.zipWith updCol ws cols) :: post,
        addClassJs "ck-table-resized" cls, ensureFixedLayout st, oa⟩ := by
    simp only [editingDowncastTable]
    rw [edChildren_update ws pre cols post hpost hlen]
  rw [h1]
  simp only [editingDowncastTable]
  rw [edChildren_update ws pre _ post hpost
    (by rw [List.length_zipWith, hlen, Nat.min_self]),
    zipWith_updCol_idem, addClassJs_idem, ensureFixedLayout_idem]

/-- Witness for C7: re-applying ["50.00%", "50.00%"] to a converted
two-column table reproduces it exactly. -/
theorem reapply_widthlist_idempotent_witness :
    editingDowncastTable ["50.00%", "50.00%"]
        (editingDowncastTable ["50.00%", "50.00%"]
          ⟨[TChild.cg [⟨"width:50.00%;", some "50.00%", []⟩, ⟨"width:50.00%;", some "50.00%", []⟩],
            TChild.other 3], ["ck-table-resized"], "table-layout:fixed;", [("border", "1")]⟩) =
      editingDowncastTable ["50.00%", "50.00%"]
        ⟨[TChild.cg [⟨"width:50.00%;", some "50.00%", []⟩, ⟨"width:50.00%;", some "50.00%", []⟩],
          TChild.other 3], ["ck-table-resized"], "table-layout:fixed;", [("border", "1")]⟩ :=
  reapply_widthlist_idempotent ["50.00%", "50.00%"] ["ck-table-resized"] "table-layout:fixed;"
    [("border", "1")] [] [TChild.other 3]
    [⟨"width:50.00%;", some "50.00%", []⟩, ⟨"width:50.00%;", some "50.00%", []⟩]
    (by decide) (by decide) (by decide)

end TableResize
